import Mathlib

/-
Verification of the in-memory file system (src/in_memory_file_system).

The Python program stores the namespace as nested dictionaries.  A node is a
dict with a "type" entry ("directory" or "file") and a "contents" entry (a
child dict for directories, a text string for files).  The top-level value
`self.file_system` is the dict `{"/": {...}}`; note that it is not itself a
typed node and initially has no "contents" key.  We embed Python dict values
as the inductive type `PyVal` (strings and ordered association-list dicts),
Python strings as `List Char`, and translate each function of utils.py and
each method of InMemoryFileSystem.  A Python exception caught by the
surrounding `except` block is modelled by an `Option` result being `none`.
-/

namespace InMemoryFS

/-- Python strings, embedded as lists of characters. -/
abbrev PyStr := List Char

/-- Convert a Lean string literal to the embedded Python string type. -/
def pys (s : String) : PyStr := s.data

/-- A Python value as used by the file-system dictionaries: either a text
string or a dict, kept as an ordered association list as Python dicts are. -/
inductive PyVal where
  | str : PyStr → PyVal
  | dict : List (PyStr × PyVal) → PyVal

/-- Python truthiness for the values that occur: empty strings and empty
dicts are falsy, everything else is truthy. -/
def truthy : PyVal → Bool
  | .str s => !s.isEmpty
  | .dict d => !d.isEmpty

/-- Python `d.get(k)` / `d[k]` lookup on a dict association list: the value
of the first matching key, if any. -/
def dget? (d : List (PyStr × PyVal)) (k : PyStr) : Option PyVal :=
  match d with
  | [] => none
  | (k2, v) :: t => if k2 = k then some v else dget? t k

/-- Python `d[k] = v` on a dict: replace the value of an existing key in
place (keeping insertion order), otherwise append the new entry. -/
def dset (d : List (PyStr × PyVal)) (k : PyStr) (v : PyVal) :
    List (PyStr × PyVal) :=
  match d with
  | [] => [(k, v)]
  | (k2, v2) :: t => if k2 = k then (k2, v) :: t else (k2, v2) :: dset t k v

/-- Python `del d[k]`: remove the first entry with the given key; `none`
models the `KeyError` raised when the key is absent. -/
def ddel (d : List (PyStr × PyVal)) (k : PyStr) :
    Option (List (PyStr × PyVal)) :=
  match d with
  | [] => none
  | (k2, v2) :: t =>
    if k2 = k then some t else (ddel t k).map (fun t2 => (k2, v2) :: t2)

/-- Python `s.split(sep)` for a one-character separator: always returns at
least one (possibly empty) piece, one more piece per separator occurrence. -/
def pySplit (sep : Char) : PyStr → List PyStr
  | [] => [[]]
  | c :: rest =>
    if c = sep then [] :: pySplit sep rest
    else
      match pySplit sep rest with
      | t :: ts => (c :: t) :: ts
      | [] => [[c]]

/-- Python `sep.join(parts)` for a one-character separator. -/
def pyJoin (sep : Char) : List PyStr → PyStr
  | [] => []
  | [x] => x
  | x :: y :: t => x ++ sep :: pyJoin sep (y :: t)

/-- Python `needle in hay` on strings: substring test. -/
def isSubstring (n : PyStr) : PyStr → Bool
  | [] => n.isEmpty
  | c :: t => n.isPrefixOf (c :: t) || isSubstring n t

/-- Python `path.startswith("/")`. -/
def startsWithSlash : PyStr → Bool
  | '/' :: _ => true
  | _ => false

/-- The list comprehension `[part for part in s.split('/') if part]`. -/
def nonemptyParts (s : PyStr) : List PyStr :=
  (pySplit '/' s).filter (fun x => !x.isEmpty)

/-- utils.get_absolute_path: convert a relative path to an absolute path
against the current directory.  If the first non-empty segment of the input
is `..`, the last segment of the current directory is popped once — and the
input segments (including that leading `..`) are then all appended.  Popping
from an empty segment list raises IndexError, which the function's own
handler turns into the empty-string result. -/
def get_absolute_path (current_directory path : PyStr) : PyStr :=
  if startsWithSlash path then path
  else
    let cd :=
      if current_directory ≠ pys "/" then current_directory ++ pys "/"
      else current_directory
    let current_parts := nonemptyParts cd
    let path_parts := nonemptyParts path
    match path_parts with
    | p :: _ =>
      if p = pys ".." then
        if current_parts.isEmpty then []
        else '/' :: pyJoin '/' (current_parts.dropLast ++ path_parts)
      else '/' :: pyJoin '/' (current_parts ++ path_parts)
    | [] => '/' :: pyJoin '/' current_parts

/-- utils.get_parent_and_name: split a path at its last `/` into the joined
leading parts and the final part. -/
def get_parent_and_name (path : PyStr) : PyStr × PyStr :=
  let parts := pySplit '/' path
  (pyJoin '/' parts.dropLast, parts.getLastD [])

/-- The walk of utils.get_directory over the already-split path segments:
empty segments are skipped, each remaining segment descends through the
current node's "contents"; a missing or falsy child, or an attribute error
from calling `.get` on a string, yields `none`. -/
def fs_find : PyVal → List PyStr → Option PyVal
  | cur, [] => some cur
  | cur, p :: rest =>
    if p = [] then fs_find cur rest
    else
      match cur with
      | .str _ => none
      | .dict d =>
        match (dget? d (pys "contents")).getD (.dict []) with
        | .str _ => none
        | .dict c =>
          match dget? c p with
          | none => none
          | some v => if truthy v then fs_find v rest else none

/-- utils.get_directory: the node at the given path, or `none`. -/
def get_directory (file_system : PyVal) (path : PyStr) : Option PyVal :=
  fs_find file_system (pySplit '/' path)

/-- In-place mutation of the node reached by the same walk as `fs_find`:
the modifier is applied to the found node and the rebuilt tree is returned.
`none` models the walk failing (the Python caller would then raise on the
`None`) or the modifier itself raising. -/
def fs_update : PyVal → List PyStr → (PyVal → Option PyVal) → Option PyVal
  | cur, [], f => f cur
  | cur, p :: rest, f =>
    if p = [] then fs_update cur rest f
    else
      match cur with
      | .str _ => none
      | .dict d =>
        match (dget? d (pys "contents")).getD (.dict []) with
        | .str _ => none
        | .dict c =>
          match dget? c p with
          | none => none
          | some v =>
            if truthy v then
              (fs_update v rest f).map
                (fun v2 => .dict (dset d (pys "contents") (.dict (dset c p v2))))
            else none

/-- Whether `get_directory` returns a truthy node, i.e. the Python test
`if get_directory(fs, path):`. -/
def existsTruthy (file_system : PyVal) (path : PyStr) : Bool :=
  match get_directory file_system path with
  | some v => truthy v
  | none => false

/-- Python `path in self.file_system`: a key test on the top-level dict
(`in` on a string value would be a substring test). -/
def topContains (file_system : PyVal) (k : PyStr) : Bool :=
  match file_system with
  | .dict d => (dget? d k).isSome
  | .str s => isSubstring k s

/-- A freshly created directory node `{'type': 'directory', 'contents': {}}`. -/
def dirNode : PyVal :=
  .dict [(pys "type", .str (pys "directory")), (pys "contents", .dict [])]

/-- A freshly created file node `{'type': 'file', 'contents': ''}`. -/
def fileNode : PyVal :=
  .dict [(pys "type", .str (pys "file")), (pys "contents", .str [])]

/-- The statement `node['contents'][name] = child`: requires the node to be
a dict whose existing "contents" value is a dict, else a KeyError or
TypeError is raised (`none`). -/
def insertChildStrict (name : PyStr) (child : PyVal) (node : PyVal) :
    Option PyVal :=
  match node with
  | .str _ => none
  | .dict d =>
    match dget? d (pys "contents") with
    | some (.dict c) =>
      some (.dict (dset d (pys "contents") (.dict (dset c name child))))
    | _ => none

/-- The statement `node['contents'] = v` (echo's content write): item
assignment on a dict always succeeds, on a string raises. -/
def setContents (v : PyVal) (node : PyVal) : Option PyVal :=
  match node with
  | .str _ => none
  | .dict d => some (.dict (dset d (pys "contents") v))

/-- The statement `del node['contents'][name]`. -/
def delChild (name : PyStr) (node : PyVal) : Option PyVal :=
  match node with
  | .str _ => none
  | .dict d =>
    match dget? d (pys "contents") with
    | some (.dict c) =>
      (ddel c name).map (fun c2 => .dict (dset d (pys "contents") (.dict c2)))
    | _ => none

/-- mkdir's parent mutation: first `if 'contents' not in parent:
parent['contents'] = {}`, then `parent['contents'][name] = {...}`. -/
def mkdirInsert (name : PyStr) (parent : PyVal) : Option PyVal :=
  match parent with
  | .str _ => none
  | .dict d =>
    let d2 :=
      if (dget? d (pys "contents")).isSome then d
      else dset d (pys "contents") (.dict [])
    match dget? d2 (pys "contents") with
    | some (.dict c) =>
      some (.dict (dset d2 (pys "contents") (.dict (dset c name dirNode))))
    | _ => none

/-- echo's `text.replace("\\n", "\n")`: each literal backslash-n pair is
decoded to a newline, scanning left to right. -/
def decodeEscapes : PyStr → PyStr
  | '\\' :: 'n' :: rest => '\n' :: decodeEscapes rest
  | c :: rest => c :: decodeEscapes rest
  | [] => []

/-- The in-memory state of an InMemoryFileSystem instance. -/
structure FSState where
  file_system : PyVal
  current_directory : PyStr

/-- The state built by `__init__` when no saved-state file exists:
`{'/': {'type': 'directory', 'contents': {}}}` with current directory `/`. -/
def initState : FSState :=
  { file_system := .dict [(pys "/", dirNode)], current_directory := pys "/" }

/-- InMemoryFileSystem.mkdir.  Resolves the name with get_absolute_path,
rejects a name already present as a key of the top-level dict, then inserts
a fresh directory node into the resolved parent. -/
def mkdir (s : FSState) (directory_name : PyStr) : Bool × FSState :=
  if directory_name = [] then (false, s)
  else
    let new_directory_path :=
      get_absolute_path s.current_directory directory_name
    if topContains s.file_system new_directory_path then (false, s)
    else
      let pn := get_parent_and_name new_directory_path
      match fs_update s.file_system (pySplit '/' pn.1) (mkdirInsert pn.2) with
      | some fs2 => (true, { s with file_system := fs2 })
      | none => (false, s)

/-- InMemoryFileSystem.cd.  Special-cases "/", "~" and ".."; otherwise the
target must be found truthy by get_directory — its type is not checked. -/
def cd (s : FSState) (path : PyStr) : Bool × FSState :=
  if path = pys "/" ∨ path = pys "~" then
    (true, { s with current_directory := pys "/" })
  else if path = pys ".." then
    let parent := (get_parent_and_name s.current_directory).1
    if parent ≠ [] then (true, { s with current_directory := parent })
    else (false, s)
  else
    let target :=
      if startsWithSlash path then path
      else get_absolute_path s.current_directory path
    if target = pys "/" then (true, { s with current_directory := pys "/" })
    else
      match get_directory s.file_system target with
      | some v =>
        if truthy v then (true, { s with current_directory := target })
        else (false, s)
      | none => (false, s)

/-- InMemoryFileSystem.touch.  The path is the f-string
`f"{self.current_directory}/{file_name}"`. -/
def touch (s : FSState) (file_name : PyStr) : Bool × FSState :=
  if file_name = [] then (false, s)
  else
    let file_path := s.current_directory ++ pys "/" ++ file_name
    if existsTruthy s.file_system file_path then (false, s)
    else
      let pn := get_parent_and_name file_path
      match
        fs_update s.file_system (pySplit '/' pn.1)
          (insertChildStrict pn.2 fileNode) with
      | some fs2 => (true, { s with file_system := fs2 })
      | none => (false, s)

/-- InMemoryFileSystem.echo.  Creates the file if the path is not found
truthy, then overwrites the node's "contents" with the empty string (when
delete_content) or with the text after decoding literal backslash-n pairs.
If the write raises after a successful creation, the created file stays. -/
def echo (s : FSState) (text file_name : PyStr) (delete_content : Bool) :
    Bool × FSState :=
  if file_name = [] then (false, s)
  else
    let file_path := s.current_directory ++ pys "/" ++ file_name
    let created : Option PyVal :=
      if existsTruthy s.file_system file_path then some s.file_system
      else
        let pn := get_parent_and_name file_path
        fs_update s.file_system (pySplit '/' pn.1)
          (insertChildStrict pn.2 fileNode)
    match created with
    | none => (false, s)
    | some fs1 =>
      let newContent : PyVal :=
        if delete_content then .str [] else .str (decodeEscapes text)
      match fs_update fs1 (pySplit '/' file_path) (setContents newContent) with
      | some fs2 => (true, { s with file_system := fs2 })
      | none => (false, { s with file_system := fs1 })

/-- InMemoryFileSystem.mv.  Both paths are f-string concatenations against
the current directory.  If the destination string contains ".." anywhere,
the destination directory is replaced by the node at the parent string of
the current directory (failing when that string is empty).  The source node
is inserted under the destination using the whole source string as key, and
only then deleted from the current directory; a failing delete keeps the
already-inserted entry. -/
def mv (s : FSState) (source destination : PyStr) : Bool × FSState :=
  let source_path := s.current_directory ++ pys "/" ++ source
  let destination_path := s.current_directory ++ pys "/" ++ destination
  match get_directory s.file_system source_path with
  | none => (false, s)
  | some source_item =>
    if !truthy source_item then (false, s)
    else
      let dpath? : Option PyStr :=
        if isSubstring (pys "..") destination then
          let parent := (get_parent_and_name s.current_directory).1
          if parent ≠ [] then some parent else none
        else some destination_path
      match dpath? with
      | none => (false, s)
      | some dpath =>
        match get_directory s.file_system dpath with
        | none => (false, s)
        | some dd =>
          if !truthy dd then (false, s)
          else
            match dd with
            | .str _ => (false, s)
            | .dict d =>
              match dget? d (pys "type") with
              | some (.str t) =>
                if t = pys "directory" then
                  match
                    fs_update s.file_system (pySplit '/' dpath)
                      (insertChildStrict source source_item) with
                  | none => (false, s)
                  | some fs1 =>
                    match
                      fs_update fs1 (pySplit '/' s.current_directory)
                        (delChild source) with
                    | none => (false, { s with file_system := fs1 })
                    | some fs2 => (true, { s with file_system := fs2 })
                else (false, s)
              | _ => (false, s)

/-- InMemoryFileSystem.cp.  The destination is split into parent and leaf;
a literal ".." leaf shifts the parent up once more.  The deep copy of the
source node (a value in this embedding) is stored in the destination's
parent under the destination's leaf name. -/
def cp (s : FSState) (source destination : PyStr) : Bool × FSState :=
  let source_path := s.current_directory ++ pys "/" ++ source
  let destination_path := s.current_directory ++ pys "/" ++ destination
  match get_directory s.file_system source_path with
  | none => (false, s)
  | some source_item =>
    if !truthy source_item then (false, s)
    else
      let pn := get_parent_and_name destination_path
      let ddp :=
        if pn.2 = pys ".." then (get_parent_and_name pn.1).1 else pn.1
      match get_directory s.file_system ddp with
      | none => (false, s)
      | some dd =>
        if !truthy dd then (false, s)
        else
          match dd with
          | .str _ => (false, s)
          | .dict d =>
            match dget? d (pys "type") with
            | some (.str t) =>
              if t = pys "directory" then
                match
                  fs_update s.file_system (pySplit '/' ddp)
                    (insertChildStrict pn.2 source_item) with
                | some fs1 => (true, { s with file_system := fs1 })
                | none => (false, s)
              else (false, s)
            | _ => (false, s)

/-- InMemoryFileSystem.rm. -/
def rm (s : FSState) (path : PyStr) : Bool × FSState :=
  if path = pys "/" then (false, s)
  else
    let item_path := s.current_directory ++ pys "/" ++ path
    match get_directory s.file_system item_path with
    | none => (false, s)
    | some item =>
      if !truthy item then (false, s)
      else
        let pn := get_parent_and_name item_path
        match fs_update s.file_system (pySplit '/' pn.1) (delChild pn.2) with
        | some fs2 => (true, { s with file_system := fs2 })
        | none => (false, s)

/-- InMemoryFileSystem.cat: returns the target's "contents" value when the
node exists, is truthy and its "type" entry equals "file". -/
def cat (s : FSState) (file_name : PyStr) : Option PyVal :=
  let file_path := s.current_directory ++ pys "/" ++ file_name
  match get_directory s.file_system file_path with
  | none => none
  | some tf =>
    if !truthy tf then none
    else
      match tf with
      | .str _ => none
      | .dict d =>
        match dget? d (pys "type") with
        | some (.str t) =>
          if t = pys "file" then some ((dget? d (pys "contents")).getD (.str []))
          else none
        | _ => none

/-- Process-level state: the in-memory instance plus the contents of the
external saved-state artifact (none: the file does not exist). -/
structure ProcState where
  st : FSState
  saved : Option PyVal

/-- Process start with no pre-existing saved-state file. -/
def procInit : ProcState := { st := initState, saved := none }

/-- InMemoryFileSystem.save_state: serialize the whole tree to the external
artifact. -/
def save_state (p : ProcState) : Bool × ProcState :=
  (true, { p with saved := some p.st.file_system })

/-- The atexit handler registered by `__init__`. -/
def save_state_on_exit (p : ProcState) : ProcState :=
  (save_state p).2

/-- mkdir at the process level: the method mutates only the in-memory
state and never calls save_state. -/
def mkdirP (p : ProcState) (n : PyStr) : Bool × ProcState :=
  ((mkdir p.st n).1, { p with st := (mkdir p.st n).2 })

/-- touch at the process level. -/
def touchP (p : ProcState) (n : PyStr) : Bool × ProcState :=
  ((touch p.st n).1, { p with st := (touch p.st n).2 })

/-- echo at the process level. -/
def echoP (p : ProcState) (text n : PyStr) (dc : Bool) : Bool × ProcState :=
  ((echo p.st text n dc).1, { p with st := (echo p.st text n dc).2 })

/-- mv at the process level. -/
def mvP (p : ProcState) (src dst : PyStr) : Bool × ProcState :=
  ((mv p.st src dst).1, { p with st := (mv p.st src dst).2 })

/-- cp at the process level. -/
def cpP (p : ProcState) (src dst : PyStr) : Bool × ProcState :=
  ((cp p.st src dst).1, { p with st := (cp p.st src dst).2 })

/-- rm at the process level. -/
def rmP (p : ProcState) (path : PyStr) : Bool × ProcState :=
  ((rm p.st path).1, { p with st := (rm p.st path).2 })

/-! ### Concrete reachable states used by the claim analyses -/

/-- mkdir "a"; cd "a"; touch "f"; cd "/" from a fresh instance: the tree
holds the directory /a containing the file /a/f, current directory "/". -/
def demoAF : FSState :=
  (cd (touch (cd (mkdir initState (pys "a")).2 (pys "a")).2 (pys "f")).2
    (pys "/")).2

/-- mkdir "d"; touch "f" from a fresh instance: the root has a directory
child d and a file child f, current directory "/". -/
def demoDF : FSState :=
  (touch (mkdir initState (pys "d")).2 (pys "f")).2

/-- mkdir "a"; cd "a"; mkdir "sub"; touch "f": current directory /a with a
directory child sub and a file child f. -/
def demoSub : FSState :=
  (touch (mkdir (cd (mkdir initState (pys "a")).2 (pys "a")).2 (pys "sub")).2
    (pys "f")).2

/-- mkdir "a"; cd "a"; mkdir "b"; cd "b"; touch "f": current directory /a/b
with a file child f. -/
def demoDeep : FSState :=
  (touch (cd (mkdir (cd (mkdir initState (pys "a")).2 (pys "a")).2
    (pys "b")).2 (pys "b")).2 (pys "f")).2

/-- mkdir "a..b"; touch "f": the root has a directory child whose name
contains "..", and a file child f, current directory "/". -/
def demoDots : FSState :=
  (touch (mkdir initState (pys "a..b")).2 (pys "f")).2

/-! ### Dictionary lemmas -/

theorem dget?_dset_self (c : List (PyStr × PyVal)) (k : PyStr) (v : PyVal) :
    dget? (dset c k v) k = some v := by
  induction c with
  | nil => simp [dset, dget?]
  | cons h t ih =>
    obtain ⟨k2, v2⟩ := h
    by_cases hk : k2 = k <;> simp [dset, dget?, hk, ih]

theorem dget?_dset_ne (c : List (PyStr × PyVal)) (k k2 : PyStr) (v : PyVal)
    (h : k2 ≠ k) : dget? (dset c k v) k2 = dget? c k2 := by
  induction c with
  | nil => simp [dset, dget?, Ne.symm h]
  | cons hd t ih =>
    obtain ⟨ka, va⟩ := hd
    by_cases hka : ka = k
    · subst hka
      simp [dset, dget?, Ne.symm h]
    · simp only [dset, if_neg hka, dget?]
      by_cases hka2 : ka = k2 <;> simp [hka2, ih]

theorem dset_ne_nil (c : List (PyStr × PyVal)) (k : PyStr) (v : PyVal) :
    dset c k v ≠ [] := by
  cases c with
  | nil => simp [dset]
  | cons h t =>
    obtain ⟨k2, v2⟩ := h
    by_cases hk : k2 = k <;> simp [dset, hk]

theorem dget?_some_ne_nil {c : List (PyStr × PyVal)} {k : PyStr} {v : PyVal}
    (h : dget? c k = some v) : c ≠ [] := by
  cases c with
  | nil => simp [dget?] at h
  | cons hd t => simp

theorem dget?_eq_none_of_not_mem {c : List (PyStr × PyVal)} {k : PyStr}
    (h : k ∉ c.map Prod.fst) : dget? c k = none := by
  induction c with
  | nil => simp [dget?]
  | cons hd t ih =>
    obtain ⟨k2, v2⟩ := hd
    simp only [List.map_cons, List.mem_cons] at h
    push_neg at h
    simp [dget?, Ne.symm h.1, ih h.2]

theorem ddel_isSome_of_dget? {c : List (PyStr × PyVal)} {k : PyStr} {v : PyVal}
    (h : dget? c k = some v) : ∃ c2, ddel c k = some c2 := by
  induction c with
  | nil => simp [dget?] at h
  | cons hd t ih =>
    obtain ⟨k2, v2⟩ := hd
    by_cases hk : k2 = k
    · exact ⟨t, by simp [ddel, hk]⟩
    · simp only [dget?, if_neg hk] at h
      obtain ⟨c2, hc2⟩ := ih h
      exact ⟨(k2, v2) :: c2, by simp [ddel, hk, hc2]⟩

theorem dget?_ddel_self {c c2 : List (PyStr × PyVal)} {k : PyStr}
    (hnd : (c.map Prod.fst).Nodup) (h : ddel c k = some c2) :
    dget? c2 k = none := by
  induction c generalizing c2 with
  | nil => simp [ddel] at h
  | cons hd t ih =>
    obtain ⟨ka, va⟩ := hd
    simp only [List.map_cons, List.nodup_cons] at hnd
    by_cases hk : ka = k
    · simp only [ddel, hk, if_true, eq_self_iff_true, Option.some.injEq] at h
      rw [← h]
      exact dget?_eq_none_of_not_mem (hk ▸ hnd.1)
    · simp only [ddel, if_neg hk] at h
      rcases hh : ddel t k with _ | t2
      · rw [hh] at h; simp at h
      · rw [hh] at h
        simp only [Option.map_some', Option.some.injEq] at h
        rw [← h]
        simp [dget?, hk, ih hnd.2 hh]

theorem dget?_ddel_ne {c c2 : List (PyStr × PyVal)} {k k2 : PyStr}
    (h : ddel c k = some c2) (hne : k2 ≠ k) :
    dget? c2 k2 = dget? c k2 := by
  induction c generalizing c2 with
  | nil => simp [ddel] at h
  | cons hd t ih =>
    obtain ⟨ka, va⟩ := hd
    by_cases hk : ka = k
    · simp only [ddel, hk, if_true, eq_self_iff_true, Option.some.injEq] at h
      rw [← h]
      have : ¬ka = k2 := fun hh => hne (hh ▸ hk)
      simp [dget?, this]
    · simp only [ddel, if_neg hk] at h
      rcases hh : ddel t k with _ | t2
      · rw [hh] at h; simp at h
      · rw [hh] at h
        simp only [Option.map_some', Option.some.injEq] at h
        rw [← h]
        by_cases hk2 : ka = k2 <;> simp [dget?, hk2, ih hh]

theorem ddel_dset_ne (c : List (PyStr × PyVal)) (k k2 : PyStr) (v : PyVal)
    (hne : k ≠ k2) :
    ddel (dset c k2 v) k = (ddel c k).map (fun x => dset x k2 v) := by
  induction c with
  | nil => simp [dset, ddel, Ne.symm hne]
  | cons hd t ih =>
    obtain ⟨ka, va⟩ := hd
    by_cases hk2 : ka = k2
    · subst hk2
      rcases hh : ddel t k with _ | t2 <;>
        simp [dset, ddel, Ne.symm hne, hh]
    · by_cases hk : ka = k
      · subst hk
        simp [dset, ddel, hk2]
      · simp only [dset, if_neg hk2, ddel, if_neg hk, ih, Option.map_map]
        rcases ddel t k with _ | t2 <;> simp [dset, hk2]

/-! ### Split and join lemmas -/

theorem pySplit_ne_nil (sep : Char) (s : PyStr) : pySplit sep s ≠ [] := by
  induction s with
  | nil => simp [pySplit]
  | cons c rest ih =>
    by_cases hc : c = sep
    · simp [pySplit, hc]
    · rcases hh : pySplit sep rest with _ | ⟨t, ts⟩
      · exact absurd hh ih
      · simp [pySplit, hc, hh]

theorem pySplit_append (sep : Char) (a b : PyStr) :
    pySplit sep (a ++ sep :: b) = pySplit sep a ++ pySplit sep b := by
  induction a with
  | nil => simp [pySplit]
  | cons c a2 ih =>
    by_cases hc : c = sep
    · simp [pySplit, hc, ih]
    · rcases hh : pySplit sep a2 with _ | ⟨t, ts⟩
      · exact absurd hh (pySplit_ne_nil sep a2)
      · rw [hh] at ih
        simp [pySplit, hc, ih, hh]

theorem not_mem_of_mem_pySplit {sep : Char} {s x : PyStr}
    (h : x ∈ pySplit sep s) : sep ∉ x := by
  induction s generalizing x with
  | nil =>
    simp only [pySplit, List.mem_singleton] at h
    subst h; simp
  | cons c rest ih =>
    by_cases hc : c = sep
    · simp only [pySplit, if_pos hc, List.mem_cons] at h
      rcases h with h | h
      · subst h; simp
      · exact ih h
    · rcases hh : pySplit sep rest with _ | ⟨t, ts⟩
      · exact absurd hh (pySplit_ne_nil sep rest)
      · simp only [pySplit, if_neg hc, hh, List.mem_cons] at h
        rcases h with h | h
        · subst h
          have ht : sep ∉ t := ih (by simp [hh])
          simp [List.mem_cons, ht, Ne.symm hc]
        · exact ih (by simp [hh, h])

theorem pySplit_of_not_mem {sep : Char} {x : PyStr} (h : sep ∉ x) :
    pySplit sep x = [x] := by
  induction x with
  | nil => simp [pySplit]
  | cons c t ih =>
    simp only [List.mem_cons] at h
    push_neg at h
    have := ih h.2
    simp [pySplit, Ne.symm h.1, this]

theorem pyJoin_pySplit (sep : Char) (s : PyStr) :
    pyJoin sep (pySplit sep s) = s := by
  induction s with
  | nil => simp [pySplit, pyJoin]
  | cons c rest ih =>
    rcases hh : pySplit sep rest with _ | ⟨t, ts⟩
    · exact absurd hh (pySplit_ne_nil sep rest)
    · rw [hh] at ih
      by_cases hc : c = sep
      · subst hc
        simp [pySplit, hh, pyJoin, ih]
      · rcases ts with _ | ⟨u, us⟩
        · simp only [pyJoin] at ih
          simp [pySplit, hc, hh, pyJoin, ih]
        · simp only [pyJoin] at ih ⊢
          simp [pySplit, hc, hh, pyJoin, ih]

theorem pySplit_pyJoin {sep : Char} {xs : List PyStr} (hne : xs ≠ [])
    (h : ∀ x ∈ xs, sep ∉ x) : pySplit sep (pyJoin sep xs) = xs := by
  induction xs with
  | nil => exact absurd rfl hne
  | cons x t ih =>
    rcases t with _ | ⟨y, us⟩
    · simp [pyJoin, pySplit_of_not_mem (h x (by simp))]
    · have hx : sep ∉ x := h x (by simp)
      have ht : ∀ z ∈ y :: us, sep ∉ z := fun z hz => h z (by simp [hz])
      calc pySplit sep (pyJoin sep (x :: y :: us))
          = pySplit sep (x ++ sep :: pyJoin sep (y :: us)) := rfl
        _ = pySplit sep x ++ pySplit sep (pyJoin sep (y :: us)) :=
            pySplit_append sep x (pyJoin sep (y :: us))
        _ = [x] ++ (y :: us) := by
            rw [pySplit_of_not_mem hx, ih (by simp) ht]
        _ = x :: y :: us := rfl

/-! ### Walk and update lemmas -/

theorem fs_find_append (xs ys : List PyStr) (root : PyVal) :
    fs_find root (xs ++ ys) = (fs_find root xs).bind (fun v => fs_find v ys) := by
  induction xs generalizing root with
  | nil => simp [fs_find]
  | cons p xs2 ih =>
    by_cases hp : p = []
    · simp [fs_find, hp, ih]
    · cases root with
      | str sv => simp [fs_find, hp]
      | dict d =>
        rcases hc : (dget? d (pys "contents")).getD (.dict []) with sv | c
        · simp [fs_find, hp, hc]
        · rcases hv : dget? c p with _ | v
          · simp [fs_find, hp, hc, hv]
          · rcases ht : truthy v with _ | _ <;>
              simp [fs_find, hp, hc, hv, ht, ih]

theorem fs_update_append (xs ys : List PyStr) (root : PyVal)
    (g : PyVal → Option PyVal) :
    fs_update root (xs ++ ys) g =
      fs_update root xs (fun v => fs_update v ys g) := by
  induction xs generalizing root with
  | nil => simp [fs_update]
  | cons p xs2 ih =>
    by_cases hp : p = []
    · simp [fs_update, hp, ih]
    · cases root with
      | str sv => simp [fs_update, hp]
      | dict d =>
        rcases hc : (dget? d (pys "contents")).getD (.dict []) with sv | c
        · simp [fs_update, hp, hc]
        · rcases hv : dget? c p with _ | v
          · simp [fs_update, hp, hc, hv]
          · rcases ht : truthy v with _ | _ <;>
              simp [fs_update, hp, hc, hv, ht, ih]

theorem fs_update_of_find {parts : List PyStr} {root v w : PyVal}
    (g : PyVal → Option PyVal)
    (hf : fs_find root parts = some v) (hg : g v = some w) :
    ∃ t, fs_update root parts g = some t ∧
      (truthy w = true → truthy t = true ∧ fs_find t parts = some w) := by
  induction parts generalizing root with
  | nil =>
    simp only [fs_find, Option.some.injEq] at hf
    subst hf
    exact ⟨w, by simpa [fs_update] using hg, fun htw => ⟨htw, by simp [fs_find]⟩⟩
  | cons p rest ih =>
    by_cases hp : p = []
    · simp only [fs_find, if_pos hp] at hf
      obtain ⟨t, h1, h2⟩ := ih hf
      refine ⟨t, by simpa [fs_update, hp] using h1, fun htw => ?_⟩
      obtain ⟨h3, h4⟩ := h2 htw
      exact ⟨h3, by simpa [fs_find, hp] using h4⟩
    · cases root with
      | str sv => simp [fs_find, hp] at hf
      | dict d =>
        rcases hc : (dget? d (pys "contents")).getD (.dict []) with sv | c
        · simp [fs_find, hp, hc] at hf
        · rcases hv : dget? c p with _ | u
          · simp [fs_find, hp, hc, hv] at hf
          · rcases htu : truthy u with _ | _
            · simp [fs_find, hp, hc, hv, htu] at hf
            · simp only [fs_find, if_neg hp, hc, hv, htu, if_pos rfl] at hf
              obtain ⟨t, h1, h2⟩ := ih hf
              refine ⟨.dict (dset d (pys "contents") (.dict (dset c p t))),
                by simp [fs_update, hp, hc, hv, htu, h1], fun htw => ?_⟩
              obtain ⟨h3, h4⟩ := h2 htw
              refine ⟨by simp [truthy, dset_ne_nil], ?_⟩
              simp [fs_find, hp, dget?_dset_self, h3, h4]

theorem fs_update_some {parts : List PyStr} {root t : PyVal}
    {g : PyVal → Option PyVal}
    (hu : fs_update root parts g = some t) :
    ∃ v w, fs_find root parts = some v ∧ g v = some w ∧
      (truthy w = true → truthy t = true ∧ fs_find t parts = some w) := by
  induction parts generalizing root t with
  | nil =>
    simp only [fs_update] at hu
    exact ⟨root, t, by simp [fs_find], hu,
      fun htw => ⟨htw, by simp [fs_find]⟩⟩
  | cons p rest ih =>
    by_cases hp : p = []
    · simp only [fs_update, if_pos hp] at hu
      obtain ⟨v, w, h1, h2, h3⟩ := ih hu
      refine ⟨v, w, by simpa [fs_find, hp] using h1, h2, fun htw => ?_⟩
      obtain ⟨h4, h5⟩ := h3 htw
      exact ⟨h4, by simpa [fs_find, hp] using h5⟩
    · cases root with
      | str sv => simp [fs_update, hp] at hu
      | dict d =>
        rcases hc : (dget? d (pys "contents")).getD (.dict []) with sv | c
        · simp [fs_update, hp, hc] at hu
        · rcases hv : dget? c p with _ | u
          · simp [fs_update, hp, hc, hv] at hu
          · rcases htu : truthy u with _ | _
            · simp [fs_update, hp, hc, hv, htu] at hu
            · rcases hu2 : fs_update u rest g with _ | t2
              · simp [fs_update, hp, hc, hv, htu, hu2] at hu
              · simp [fs_update, hp, hc, hv, htu, hu2] at hu
                subst hu
                obtain ⟨v, w, h1, h2, h3⟩ := ih hu2
                refine ⟨v, w, by simp [fs_find, hp, hc, hv, htu, h1], h2,
                  fun htw => ?_⟩
                obtain ⟨h4, h5⟩ := h3 htw
                refine ⟨by simp [truthy, dset_ne_nil], ?_⟩
                simp [fs_find, hp, dget?_dset_self, h4, h5]

theorem truthy_dict_ne_nil {d : List (PyStr × PyVal)} (h : d ≠ []) :
    truthy (.dict d) = true := by
  cases d with
  | nil => exact absurd rfl h
  | cons a t => rfl

theorem append_slash_cons (cur x : PyStr) :
    cur ++ pys "/" ++ x = cur ++ '/' :: x := by
  rw [List.append_assoc]; rfl

theorem pySplit_slash_concat (cur x : PyStr) (hx : '/' ∉ x) :
    pySplit '/' (cur ++ pys "/" ++ x) = pySplit '/' cur ++ [x] := by
  rw [append_slash_cons, pySplit_append, pySplit_of_not_mem hx]

theorem get_parent_and_name_concat (cur x : PyStr) (hx : '/' ∉ x) :
    get_parent_and_name (cur ++ pys "/" ++ x) = (cur, x) := by
  unfold get_parent_and_name
  rw [pySplit_slash_concat cur x hx]
  simp [List.dropLast_concat, List.getLastD_concat, pyJoin_pySplit]

theorem get_directory_concat (fsv : PyVal) (cur x : PyStr) (hx : '/' ∉ x) :
    get_directory fsv (cur ++ pys "/" ++ x) =
      (fs_find fsv (pySplit '/' cur)).bind (fun v => fs_find v [x]) := by
  unfold get_directory
  rw [pySplit_slash_concat cur x hx, fs_find_append]

theorem fs_find_single_some {d c : List (PyStr × PyVal)} {x : PyStr}
    {v : PyVal} (hx : x ≠ [])
    (hc : dget? d (pys "contents") = some (.dict c))
    (hv : dget? c x = some v) (htv : truthy v = true) :
    fs_find (.dict d) [x] = some v := by
  simp [fs_find, hx, hc, hv, htv]

theorem fs_find_single_none {d c : List (PyStr × PyVal)} {x : PyStr}
    (hx : x ≠ [])
    (hc : dget? d (pys "contents") = some (.dict c))
    (hv : dget? c x = none) :
    fs_find (.dict d) [x] = none := by
  simp [fs_find, hx, hc, hv]

theorem fs_update_single {d c : List (PyStr × PyVal)} {x : PyStr}
    {v w : PyVal} {g : PyVal → Option PyVal} (hx : x ≠ [])
    (hc : dget? d (pys "contents") = some (.dict c))
    (hv : dget? c x = some v) (htv : truthy v = true) (hg : g v = some w) :
    fs_update (.dict d) [x] g =
      some (.dict (dset d (pys "contents") (.dict (dset c x w)))) := by
  simp [fs_update, hx, hc, hv, htv, hg]

theorem getLastD_mem_self {α : Type} {l : List α} (h : l ≠ []) (d : α) :
    l.getLastD d ∈ l := by
  rw [List.getLastD_eq_getLast?, List.getLast?_eq_getLast l h]
  simp [List.getLast_mem]

theorem slash_not_mem_parent_name_snd (path : PyStr) :
    '/' ∉ (get_parent_and_name path).2 := by
  unfold get_parent_and_name
  exact not_mem_of_mem_pySplit
    (getLastD_mem_self (pySplit_ne_nil '/' path) [])

/-! ### Claim C1 -/

/-- C1: the claim states that mkdir fails with AlreadyExists when a node
already exists at the resolved path, so a second mkdir("a") from the same
directory must fail and leave the namespace unchanged.  The code's
existence check `new_directory_path in self.file_system` tests the keys of
the top-level dict, which only ever holds "/" and "contents", so it never
fires: evaluated at the failing input, the second mkdir("a") returns True
and resets the existing child to an empty directory, erasing /a/f. -/
theorem C1_mkdir_overwrite :
    (mkdir initState (pys "a")).1 = true ∧
    get_directory demoAF.file_system (pys "/a/f") = some fileNode ∧
    demoAF.current_directory = pys "/" ∧
    (mkdir demoAF (pys "a")).1 = true ∧
    get_directory (mkdir demoAF (pys "a")).2.file_system (pys "/a/f") = none ∧
    get_directory (mkdir demoAF (pys "a")).2.file_system (pys "/a") =
      some dirNode :=
  ⟨rfl, rfl, rfl, rfl, rfl, rfl⟩

/-! ### Claim C5 -/

/-- C5: the claim states that touch(n) succeeds whenever n is non-empty, no
node exists at the resolved path and the current directory exists,
including in a freshly initialized namespace.  In the fresh state the
top-level dict has no "contents" key, so `parent['contents'][name]` raises
KeyError and touch returns False leaving the state unchanged, although the
name is non-empty, the target is absent and the current directory
resolves. -/
theorem C5_touch_fresh_root_fails :
    get_directory initState.file_system initState.current_directory =
      some initState.file_system ∧
    truthy initState.file_system = true ∧
    get_directory initState.file_system
      (initState.current_directory ++ pys "/" ++ pys "f") = none ∧
    touch initState (pys "f") = (false, initState) :=
  ⟨rfl, rfl, rfl, rfl⟩

/-! ### Claim C6 -/

/-- C6 (amended): the core mutating operations mkdir, touch, echo, mv, cp
and rm never write the snapshot artifact; only the exit handler registered
in `__init__` persists the tree, at process shutdown. -/
theorem C6_ops_never_save (p : ProcState) (a b t : PyStr) (dc : Bool) :
    (mkdirP p a).2.saved = p.saved ∧
    (touchP p a).2.saved = p.saved ∧
    (echoP p t a dc).2.saved = p.saved ∧
    (mvP p a b).2.saved = p.saved ∧
    (cpP p a b).2.saved = p.saved ∧
    (rmP p a).2.saved = p.saved ∧
    (save_state_on_exit p).saved = some p.st.file_system :=
  ⟨rfl, rfl, rfl, rfl, rfl, rfl, rfl⟩

/-- C6 counterexample: after a successful mkdir from a fresh process state
the persisted artifact does not equal the serialization of the current
namespace — nothing was saved at all. -/
theorem C6_counterexample_no_save_after_mkdir :
    (mkdirP procInit (pys "a")).1 = true ∧
    (mkdirP procInit (pys "a")).2.saved ≠
      some (mkdirP procInit (pys "a")).2.st.file_system :=
  ⟨rfl, fun h => Option.noConfusion h⟩

/-! ### Claim C4 -/

/-- C4 (amended): for a relative input whose first non-empty segment is
"..", the resolver pops the last segment of the current directory once but
then appends all of the input's segments, including the leading ".." —
the ".." is re-appended, not dropped; when the current directory has no
non-empty segments the pop raises IndexError and the resolver returns the
empty string. -/
theorem C4_resolver_keeps_dotdot (c p : PyStr)
    (habs : startsWithSlash p = false)
    (hfirst : (nonemptyParts p).head? = some (pys "..")) :
    get_absolute_path c p =
      if nonemptyParts c = [] then []
      else '/' :: pyJoin '/' ((nonemptyParts c).dropLast ++ nonemptyParts p) := by
  have hcd : nonemptyParts
      (if c ≠ pys "/" then c ++ pys "/" else c) = nonemptyParts c := by
    by_cases hc : c = pys "/"
    · simp [hc]
    · have h1 : c ++ pys "/" = c ++ '/' :: ([] : PyStr) := rfl
      rw [if_pos hc, h1]
      unfold nonemptyParts
      rw [pySplit_append]
      simp [pySplit]
  rcases hp : nonemptyParts p with _ | ⟨p0, tl⟩
  · rw [hp] at hfirst; simp at hfirst
  · rw [hp] at hfirst
    simp only [List.head?_cons, Option.some.injEq] at hfirst
    unfold get_absolute_path
    rw [if_neg (by simp [habs])]
    simp only [hcd, hp, hfirst, if_pos rfl]
    by_cases hce : nonemptyParts c = []
    · simp [hce]
    · simp [hce, List.isEmpty_iff]

/-- C4 counterexample: resolving "../c" against "/a/b" yields "/a/../c",
not the "/a/c" that dropping the leading ".." would give. -/
theorem C4_counterexample_dotdot_reappended :
    get_absolute_path (pys "/a/b") (pys "../c") = pys "/a/../c" ∧
    get_absolute_path (pys "/a/b") (pys "../c") ≠ pys "/a/c" :=
  ⟨rfl, by decide⟩

/-- Witness for C4: the amended statement instantiated at the concrete
input "/a/b", "../c". -/
theorem C4_witness :
    get_absolute_path (pys "/a/b") (pys "../c") =
      if nonemptyParts (pys "/a/b") = [] then []
      else '/' :: pyJoin '/'
        ((nonemptyParts (pys "/a/b")).dropLast ++ nonemptyParts (pys "../c")) :=
  C4_resolver_keeps_dotdot (pys "/a/b") (pys "../c") rfl rfl

/-! ### Claim C2 counterexample -/

/-- C2 counterexample: from the reachable state with a file /f, cd("f")
succeeds and commits the current directory to a path that resolves to a
File node, so the claimed invariant (the current directory always
references a Directory, enforced by cd) is false on the code — cd checks
only existence, not the node type. -/
theorem C2_counterexample_cd_into_file :
    (cd demoDF (pys "f")).1 = true ∧
    (cd demoDF (pys "f")).2.current_directory = pys "/f" ∧
    get_directory (cd demoDF (pys "f")).2.file_system
      ((cd demoDF (pys "f")).2.current_directory) =
      some (.dict [(pys "type", .str (pys "file")),
        (pys "contents", .str [])]) :=
  ⟨rfl, rfl, rfl⟩

/-- C2 (amended): for a non-special path p (not "/", "~" or "..") whose
resolved target string is not "/", cd succeeds exactly when the resolved
target exists and is truthy — be it a Directory or a File, since cd
performs no type check; on success the current directory becomes the
resolved target, and on failure the state is left unchanged. -/
theorem C2_cd_checks_existence_only (s : FSState) (p t : PyStr)
    (h1 : p ≠ pys "/") (h2 : p ≠ pys "~") (h3 : p ≠ pys "..")
    (ht : t = if startsWithSlash p then p
      else get_absolute_path s.current_directory p)
    (ht2 : t ≠ pys "/") :
    ((cd s p).1 = true ↔ existsTruthy s.file_system t = true) ∧
    ((cd s p).1 = true → (cd s p).2 = { s with current_directory := t }) ∧
    ((cd s p).1 = false → (cd s p).2 = s) := by
  have hor : ¬(p = pys "/" ∨ p = pys "~") := by
    rintro (h | h)
    · exact h1 h
    · exact h2 h
  simp only [cd, if_neg hor, if_neg h3, ← ht, if_neg ht2]
  cases hg : get_directory s.file_system t with
  | none => simp [existsTruthy, hg]
  | some v =>
    rcases htv : truthy v with _ | _ <;> simp [existsTruthy, hg, htv]

/-- Witness for C2: the amended statement instantiated at the reachable
state with a directory /d, path "d" resolving to "/d". -/
theorem C2_witness :
    ((cd demoDF (pys "d")).1 = true ↔
      existsTruthy demoDF.file_system (pys "/d") = true) ∧
    ((cd demoDF (pys "d")).1 = true →
      (cd demoDF (pys "d")).2 = { demoDF with current_directory := pys "/d" }) ∧
    ((cd demoDF (pys "d")).1 = false → (cd demoDF (pys "d")).2 = demoDF) :=
  C2_cd_checks_existence_only demoDF (pys "d") (pys "/d")
    (by decide) (by decide) (by decide) rfl (by decide)

/-! ### Claim C3 counterexample -/

/-- C3 counterexample: with /a/sub an existing directory and /a/f a file,
cp("f", "sub") from /a succeeds but stores the copy at /a/sub itself,
replacing the directory node by a file copy, instead of creating
/a/sub/f and leaving sub intact as the claim states. -/
theorem C3_counterexample_cp_replaces_sub :
    get_directory demoSub.file_system (pys "/a/sub") = some dirNode ∧
    (cp demoSub (pys "f") (pys "sub")).1 = true ∧
    get_directory (cp demoSub (pys "f") (pys "sub")).2.file_system
      (pys "/a/sub") = some fileNode ∧
    get_directory (cp demoSub (pys "f") (pys "sub")).2.file_system
      (pys "/a/sub/f") = none :=
  ⟨rfl, rfl, rfl, rfl⟩

/-- C3 (amended): whenever cp(source, destination) succeeds (and the
destination's leaf name is non-empty and not the literal ".."), the deep
copy of the source node is stored in the node at the destination path's
parent under the destination's leaf name — at the destination path itself,
overwriting whatever node was there — never inside an existing destination
directory, and never under the source's leaf name. -/
theorem C3_cp_inserts_at_destination_leaf (s : FSState)
    (source destination : PyStr)
    (hdn1 : (get_parent_and_name
      (s.current_directory ++ pys "/" ++ destination)).2 ≠ [])
    (hdn2 : (get_parent_and_name
      (s.current_directory ++ pys "/" ++ destination)).2 ≠ pys "..")
    (hsucc : (cp s source destination).1 = true) :
    ∃ src,
      get_directory s.file_system
        (s.current_directory ++ pys "/" ++ source) = some src ∧
      truthy src = true ∧
      get_directory (cp s source destination).2.file_system
        ((get_parent_and_name (s.current_directory ++ pys "/" ++ destination)).1
          ++ pys "/" ++
          (get_parent_and_name
            (s.current_directory ++ pys "/" ++ destination)).2) = some src := by
  have hx : '/' ∉ (get_parent_and_name
      (s.current_directory ++ pys "/" ++ destination)).2 :=
    slash_not_mem_parent_name_snd _
  simp only [cp] at hsucc
  rcases hs : get_directory s.file_system
      (s.current_directory ++ pys "/" ++ source) with _ | src
  · rw [hs] at hsucc; simp at hsucc
  rw [hs] at hsucc
  rcases hts : truthy src with _ | _
  · simp [hts] at hsucc
  simp only [hts, Bool.not_true, Bool.false_eq_true, if_false] at hsucc
  rw [if_neg hdn2] at hsucc
  rcases hdd : get_directory s.file_system
      (get_parent_and_name
        (s.current_directory ++ pys "/" ++ destination)).1 with _ | dd
  · rw [hdd] at hsucc; simp at hsucc
  rw [hdd] at hsucc
  rcases htd : truthy dd with _ | _
  · simp [htd] at hsucc
  simp only [htd, Bool.not_true, Bool.false_eq_true, if_false] at hsucc
  rcases dd with sv | d
  · simp at hsucc
  rcases hty : dget? d (pys "type") with _ | tv
  · simp [hty] at hsucc
  rcases tv with tstr | tdict
  case dict.some.dict => simp [hty] at hsucc
  by_cases hdir : tstr = pys "directory"
  case neg => simp [hty, hdir] at hsucc
  rcases hup : fs_update s.file_system
      (pySplit '/' (get_parent_and_name
        (s.current_directory ++ pys "/" ++ destination)).1)
      (insertChildStrict (get_parent_and_name
        (s.current_directory ++ pys "/" ++ destination)).2 src) with _ | fs1
  · simp only [hty, hdir, eq_self_iff_true, if_true, hup] at hsucc
    simp at hsucc
  have hcp : (cp s source destination).2 = { s with file_system := fs1 } := by
    simp only [cp, hs, hts, Bool.not_true, Bool.false_eq_true, if_false,
      if_neg hdn2, hdd, htd, hty, hdir, eq_self_iff_true, if_true, hup]
  refine ⟨src, rfl, hts, ?_⟩
  rw [hcp]
  obtain ⟨v, w, hfind, hg, hback⟩ := fs_update_some hup
  rcases v with sv2 | d2
  · simp [insertChildStrict] at hg
  rcases hc2 : dget? d2 (pys "contents") with _ | cv
  · simp [insertChildStrict, hc2] at hg
  rcases cv with cs2 | c2
  · simp [insertChildStrict, hc2] at hg
  simp only [insertChildStrict, hc2, Option.some.injEq] at hg
  have hw : truthy w = true := by
    rw [← hg]
    exact truthy_dict_ne_nil (dset_ne_nil _ _ _)
  obtain ⟨hwt, hback2⟩ := hback hw
  rw [get_directory_concat _ _ _ hx, hback2]
  rw [← hg]
  exact fs_find_single_some hdn1 (dget?_dset_self _ _ _)
    (dget?_dset_self _ _ _) hts

/-- Witness for C3: the amended statement instantiated at the reachable
state demoSub with source "f" and destination "sub". -/
theorem C3_witness :
    ∃ src,
      get_directory demoSub.file_system
        (demoSub.current_directory ++ pys "/" ++ pys "f") = some src ∧
      truthy src = true ∧
      get_directory (cp demoSub (pys "f") (pys "sub")).2.file_system
        ((get_parent_and_name
            (demoSub.current_directory ++ pys "/" ++ pys "sub")).1
          ++ pys "/" ++
          (get_parent_and_name
            (demoSub.current_directory ++ pys "/" ++ pys "sub")).2) =
        some src :=
  C3_cp_inserts_at_destination_leaf demoSub (pys "f") (pys "sub")
    (by decide) (by decide) rfl

/-! ### Claim C7 -/

/-- C7: for any state whose current-directory node has an existing file
child fname, echo(text, fname) with delete_content unset succeeds and
replaces that file's content with the text in which every literal
two-character backslash-n sequence has been decoded into a real newline,
and cat(fname) afterwards returns exactly the decoded content — so
touch("f"); echo("line1\\nline2", "f"); cat("f") yields the two-line text
whenever the touch created the file. -/
theorem C7_echo_decodes_escapes (s : FSState) (fname text : PyStr)
    (d c df : List (PyStr × PyVal))
    (hroot : fs_find s.file_system (pySplit '/' s.current_directory) =
      some (.dict d))
    (hdc : dget? d (pys "contents") = some (.dict c))
    (hfn : dget? c fname = some (.dict df))
    (hft : dget? df (pys "type") = some (.str (pys "file")))
    (hf1 : fname ≠ []) (hf2 : '/' ∉ fname) :
    (echo s text fname false).1 = true ∧
    fs_find (echo s text fname false).2.file_system
      (pySplit '/' s.current_directory ++ [fname]) =
      some (.dict (dset df (pys "contents") (.str (decodeEscapes text)))) ∧
    cat (echo s text fname false).2 fname =
      some (.str (decodeEscapes text)) := by
  have hdfne : df ≠ [] := dget?_some_ne_nil hft
  have htdf : truthy (.dict df) = true := truthy_dict_ne_nil hdfne
  have hlook : get_directory s.file_system
      (s.current_directory ++ pys "/" ++ fname) = some (.dict df) := by
    rw [get_directory_concat _ _ _ hf2, hroot]
    exact fs_find_single_some hf1 hdc hfn htdf
  have hex : existsTruthy s.file_system
      (s.current_directory ++ pys "/" ++ fname) = true := by
    simp only [existsTruthy, hlook, htdf]
  have hpath : pySplit '/' (s.current_directory ++ pys "/" ++ fname) =
      pySplit '/' s.current_directory ++ [fname] :=
    pySplit_slash_concat _ _ hf2
  have hg : (fun v => fs_update v [fname]
        (setContents (.str (decodeEscapes text)))) (.dict d) =
      some (.dict (dset d (pys "contents") (.dict (dset c fname
        (.dict (dset df (pys "contents") (.str (decodeEscapes text)))))))) :=
    fs_update_single hf1 hdc hfn htdf rfl
  obtain ⟨fs2, hup2, hback⟩ := fs_update_of_find
    (fun v => fs_update v [fname] (setContents (.str (decodeEscapes text))))
    hroot hg
  have hupfull : fs_update s.file_system
      (pySplit '/' (s.current_directory ++ pys "/" ++ fname))
      (setContents (.str (decodeEscapes text))) = some fs2 := by
    rw [hpath, fs_update_append]
    exact hup2
  obtain ⟨ht2, hback2⟩ :=
    hback (truthy_dict_ne_nil (dset_ne_nil _ _ _))
  have hecho : echo s text fname false =
      (true, { s with file_system := fs2 }) := by
    simp only [echo, if_neg hf1, hex, eq_self_iff_true, if_true,
      Bool.false_eq_true, if_false, hupfull]
  have hstep : fs_find fs2
      (pySplit '/' s.current_directory ++ [fname]) =
      some (.dict (dset df (pys "contents") (.str (decodeEscapes text)))) := by
    rw [fs_find_append, hback2]
    exact fs_find_single_some hf1 (dget?_dset_self _ _ _)
      (dget?_dset_self _ _ _) (truthy_dict_ne_nil (dset_ne_nil _ _ _))
  refine ⟨by rw [hecho], by rw [hecho]; exact hstep, ?_⟩
  rw [hecho]
  have hlook2 : get_directory fs2
      (s.current_directory ++ pys "/" ++ fname) =
      some (.dict (dset df (pys "contents") (.str (decodeEscapes text)))) := by
    rw [get_directory_concat _ _ _ hf2]
    rw [hback2]
    exact fs_find_single_some hf1 (dget?_dset_self _ _ _)
      (dget?_dset_self _ _ _) (truthy_dict_ne_nil (dset_ne_nil _ _ _))
  have hty2 : dget? (dset df (pys "contents") (.str (decodeEscapes text)))
      (pys "type") = some (.str (pys "file")) := by
    rw [dget?_dset_ne _ _ _ _ (by decide)]
    exact hft
  have hcont2 : dget? (dset df (pys "contents") (.str (decodeEscapes text)))
      (pys "contents") = some (.str (decodeEscapes text)) :=
    dget?_dset_self _ _ _
  simp only [cat, hlook2, truthy_dict_ne_nil (dset_ne_nil _ _ _),
    Bool.not_true, Bool.false_eq_true, if_false, hty2, eq_self_iff_true,
    if_true, hcont2, Option.getD_some]

/-- Witness for C7: the spec's scenario run from the reachable state
demoDF, whose file /f was created by touch: echo("line1\\nline2", "f")
succeeds and cat("f") returns "line1\nline2" with a real newline. -/
theorem C7_witness :
    (echo demoDF (pys "line1\\nline2") (pys "f") false).1 = true ∧
    cat (echo demoDF (pys "line1\\nline2") (pys "f") false).2 (pys "f") =
      some (.str (pys "line1\nline2")) := by
  have h := C7_echo_decodes_escapes demoDF (pys "f") (pys "line1\\nline2")
    [(pys "/", dirNode),
     (pys "contents", .dict [(pys "d", dirNode), (pys "f", fileNode)])]
    [(pys "d", dirNode), (pys "f", fileNode)]
    [(pys "type", .str (pys "file")), (pys "contents", .str [])]
    rfl rfl rfl rfl (by decide) (by decide)
  refine ⟨h.1, ?_⟩
  have h3 := h.2.2
  rw [show decodeEscapes (pys "line1\\nline2") = pys "line1\nline2" from rfl]
    at h3
  exact h3

/-! ### Claim C8 -/

/-- C8: deep-copy independence.  From any state whose current directory is
a real directory node with a child node f, a successful cp(f, g) followed
by rewriting the copy's content via echo(text, g) leaves the original
node at f exactly as it was, while the copy at g carries the new content —
the copy inserted by cp shares nothing with the original (deepcopy is a
fresh value). -/
theorem C8_cp_deep_copy_independent (s : FSState) (f g text : PyStr)
    (d c df : List (PyStr × PyVal))
    (hroot : fs_find s.file_system (pySplit '/' s.current_directory) =
      some (.dict d))
    (hty : dget? d (pys "type") = some (.str (pys "directory")))
    (hdc : dget? d (pys "contents") = some (.dict c))
    (hf : dget? c f = some (.dict df)) (hdf : df ≠ [])
    (hf1 : f ≠ []) (hf2 : '/' ∉ f) (hg1 : g ≠ []) (hg2 : '/' ∉ g)
    (hfg : f ≠ g) (hgd : g ≠ pys "..") :
    (cp s f g).1 = true ∧
    (echo (cp s f g).2 text g false).1 = true ∧
    fs_find (echo (cp s f g).2 text g false).2.file_system
      (pySplit '/' s.current_directory ++ [f]) = some (.dict df) ∧
    fs_find (echo (cp s f g).2 text g false).2.file_system
      (pySplit '/' s.current_directory ++ [g]) =
      some (.dict (dset df (pys "contents") (.str (decodeEscapes text)))) := by
  have hdne : d ≠ [] := dget?_some_ne_nil hty
  have htd : truthy (.dict d) = true := truthy_dict_ne_nil hdne
  have htdf : truthy (.dict df) = true := truthy_dict_ne_nil hdf
  have hsrc : get_directory s.file_system
      (s.current_directory ++ pys "/" ++ f) = some (.dict df) := by
    rw [get_directory_concat _ _ _ hf2, hroot]
    exact fs_find_single_some hf1 hdc hf htdf
  have hpn : get_parent_and_name (s.current_directory ++ pys "/" ++ g) =
      (s.current_directory, g) :=
    get_parent_and_name_concat _ _ hg2
  have hins : insertChildStrict g (.dict df) (.dict d) =
      some (.dict (dset d (pys "contents") (.dict (dset c g (.dict df))))) := by
    simp [insertChildStrict, hdc]
  obtain ⟨fs1, hup1, hback1p⟩ :=
    fs_update_of_find (insertChildStrict g (.dict df)) hroot hins
  obtain ⟨hft1, hback1⟩ := hback1p (truthy_dict_ne_nil (dset_ne_nil _ _ _))
  have hdd0 : get_directory s.file_system s.current_directory =
      some (.dict d) := hroot
  have hcp : cp s f g = (true, { s with file_system := fs1 }) := by
    simp only [cp, hsrc, htd, htdf, Bool.not_true, Bool.false_eq_true,
      if_false, hpn, if_neg hgd, hdd0, hty, eq_self_iff_true, if_true, hup1]
  have hlookg : get_directory fs1
      (s.current_directory ++ pys "/" ++ g) = some (.dict df) := by
    rw [get_directory_concat _ _ _ hg2, hback1]
    exact fs_find_single_some hg1 (dget?_dset_self _ _ _)
      (dget?_dset_self _ _ _) htdf
  have hexg : existsTruthy fs1
      (s.current_directory ++ pys "/" ++ g) = true := by
    simp only [existsTruthy, hlookg, htdf]
  have hgw : (fun v => fs_update v [g]
        (setContents (.str (decodeEscapes text))))
      (.dict (dset d (pys "contents") (.dict (dset c g (.dict df))))) =
      some (.dict (dset (dset d (pys "contents") (.dict (dset c g (.dict df))))
        (pys "contents") (.dict (dset (dset c g (.dict df)) g
          (.dict (dset df (pys "contents") (.str (decodeEscapes text)))))))) :=
    fs_update_single hg1 (dget?_dset_self _ _ _) (dget?_dset_self _ _ _)
      htdf rfl
  obtain ⟨fs2, hup2, hback2p⟩ := fs_update_of_find
    (fun v => fs_update v [g] (setContents (.str (decodeEscapes text))))
    hback1 hgw
  obtain ⟨hft2, hback2⟩ := hback2p (truthy_dict_ne_nil (dset_ne_nil _ _ _))
  have hupfull : fs_update fs1
      (pySplit '/' (s.current_directory ++ pys "/" ++ g))
      (setContents (.str (decodeEscapes text))) = some fs2 := by
    rw [pySplit_slash_concat _ _ hg2, fs_update_append]
    exact hup2
  have hecho : echo { s with file_system := fs1 } text g false =
      (true, { s with file_system := fs2 }) := by
    simp only [echo, if_neg hg1, hexg, eq_self_iff_true, if_true,
      Bool.false_eq_true, if_false, hupfull]
  have hgetf : dget? (dset (dset c g (.dict df)) g
      (.dict (dset df (pys "contents") (.str (decodeEscapes text))))) f =
      some (.dict df) := by
    rw [dget?_dset_ne _ _ _ _ hfg, dget?_dset_ne _ _ _ _ hfg]
    exact hf
  refine ⟨by rw [hcp], ?_, ?_, ?_⟩
  · simp only [hcp, hecho]
  · simp only [hcp, hecho]
    rw [fs_find_append, hback2]
    exact fs_find_single_some hf1 (dget?_dset_self _ _ _) hgetf htdf
  · simp only [hcp, hecho]
    rw [fs_find_append, hback2]
    exact fs_find_single_some hg1 (dget?_dset_self _ _ _)
      (dget?_dset_self _ _ _) (truthy_dict_ne_nil (dset_ne_nil _ _ _))

/-- Witness for C8: the statement instantiated at the reachable state
demoSub (current directory /a holding the file f and directory sub), with
copy name "g" and new content "new". -/
theorem C8_witness :
    (cp demoSub (pys "f") (pys "g")).1 = true ∧
    (echo (cp demoSub (pys "f") (pys "g")).2 (pys "new") (pys "g") false).1 =
      true ∧
    fs_find (echo (cp demoSub (pys "f") (pys "g")).2 (pys "new") (pys "g")
        false).2.file_system
      (pySplit '/' demoSub.current_directory ++ [pys "f"]) =
      some (.dict [(pys "type", .str (pys "file")),
        (pys "contents", .str [])]) ∧
    fs_find (echo (cp demoSub (pys "f") (pys "g")).2 (pys "new") (pys "g")
        false).2.file_system
      (pySplit '/' demoSub.current_directory ++ [pys "g"]) =
      some (.dict (dset [(pys "type", .str (pys "file")),
        (pys "contents", .str [])] (pys "contents")
        (.str (decodeEscapes (pys "new"))))) :=
  C8_cp_deep_copy_independent demoSub (pys "f") (pys "g") (pys "new")
    [(pys "type", .str (pys "directory")),
     (pys "contents", .dict [(pys "sub", dirNode), (pys "f", fileNode)])]
    [(pys "sub", dirNode), (pys "f", fileNode)]
    [(pys "type", .str (pys "file")), (pys "contents", .str [])]
    rfl rfl rfl rfl (List.cons_ne_nil _ _) (by decide) (by decide)
    (by decide) (by decide) (by decide) (by decide)

/-- C9 counterexample: f is an existing child and a..b an existing
directory child of the current directory, yet mv("f", "a..b") fails and
changes nothing, because the destination string contains ".." as a
substring and the parent-directory special case takes over (and the
current directory's parent string is empty at the root). -/
theorem C9_counterexample_dotdot_in_name :
    get_directory demoDots.file_system (pys "/a..b") = some dirNode ∧
    get_directory demoDots.file_system (pys "/f") = some fileNode ∧
    mv demoDots (pys "f") (pys "a..b") = (false, demoDots) :=
  ⟨rfl, rfl, rfl⟩

/-- C9 (amended): for any state whose current directory node has a child
node f and a directory child sub (plain non-empty names without '/', with
f different from sub and sub not containing the substring ".."),
mv(f, sub) succeeds; afterwards f is absent from the current directory
and present under sub with the identical node value. -/
theorem C9_mv_into_subdirectory (s : FSState) (f sub : PyStr)
    (d c ds cs : List (PyStr × PyVal)) (vf : PyVal)
    (hroot : fs_find s.file_system (pySplit '/' s.current_directory) =
      some (.dict d))
    (hdc : dget? d (pys "contents") = some (.dict c))
    (hnd : (c.map Prod.fst).Nodup)
    (hf : dget? c f = some vf) (hvt : truthy vf = true)
    (hs : dget? c sub = some (.dict ds))
    (hst : dget? ds (pys "type") = some (.str (pys "directory")))
    (hsc : dget? ds (pys "contents") = some (.dict cs))
    (hf1 : f ≠ []) (hf2 : '/' ∉ f) (hs1 : sub ≠ []) (hs2 : '/' ∉ sub)
    (hfs : f ≠ sub) (hnds : isSubstring (pys "..") sub = false) :
    (mv s f sub).1 = true ∧
    fs_find (mv s f sub).2.file_system
      (pySplit '/' s.current_directory ++ [f]) = none ∧
    fs_find (mv s f sub).2.file_system
      (pySplit '/' s.current_directory ++ [sub, f]) = some vf := by
  have hdsne : ds ≠ [] := dget?_some_ne_nil hst
  have htds : truthy (.dict ds) = true := truthy_dict_ne_nil hdsne
  have hsrc : get_directory s.file_system
      (s.current_directory ++ pys "/" ++ f) = some vf := by
    rw [get_directory_concat _ _ _ hf2, hroot]
    exact fs_find_single_some hf1 hdc hf hvt
  have hdd : get_directory s.file_system
      (s.current_directory ++ pys "/" ++ sub) = some (.dict ds) := by
    rw [get_directory_concat _ _ _ hs2, hroot]
    exact fs_find_single_some hs1 hdc hs htds
  have hg1 : (fun v => fs_update v [sub] (insertChildStrict f vf))
      (.dict d) =
      some (.dict (dset d (pys "contents") (.dict (dset c sub
        (.dict (dset ds (pys "contents") (.dict (dset cs f vf)))))))) :=
    fs_update_single hs1 hdc hs htds (by simp [insertChildStrict, hsc])
  obtain ⟨fs1, hup1, hback1p⟩ := fs_update_of_find
    (fun v => fs_update v [sub] (insertChildStrict f vf)) hroot hg1
  obtain ⟨hft1, hback1⟩ := hback1p (truthy_dict_ne_nil (dset_ne_nil _ _ _))
  have hupfull1 : fs_update s.file_system
      (pySplit '/' (s.current_directory ++ pys "/" ++ sub))
      (insertChildStrict f vf) = some fs1 := by
    rw [pySplit_slash_concat _ _ hs2, fs_update_append]
    exact hup1
  obtain ⟨c2, hdelc⟩ := ddel_isSome_of_dget? hf
  have hdelmix : ddel (dset c sub
      (.dict (dset ds (pys "contents") (.dict (dset cs f vf))))) f =
      some (dset c2 sub
        (.dict (dset ds (pys "contents") (.dict (dset cs f vf))))) := by
    rw [ddel_dset_ne _ _ _ _ hfs, hdelc]
    rfl
  have hdel : delChild f
      (.dict (dset d (pys "contents") (.dict (dset c sub
        (.dict (dset ds (pys "contents") (.dict (dset cs f vf)))))))) =
      some (.dict (dset (dset d (pys "contents") (.dict (dset c sub
        (.dict (dset ds (pys "contents") (.dict (dset cs f vf)))))))
        (pys "contents") (.dict (dset c2 sub
          (.dict (dset ds (pys "contents") (.dict (dset cs f vf)))))))) := by
    simp only [delChild, dget?_dset_self, hdelmix, Option.map_some']
  obtain ⟨fs2, hup2, hback2p⟩ :=
    fs_update_of_find (delChild f) hback1 hdel
  obtain ⟨hft2, hback2⟩ := hback2p (truthy_dict_ne_nil (dset_ne_nil _ _ _))
  have hmv : mv s f sub = (true, { s with file_system := fs2 }) := by
    simp only [mv, hsrc, hvt, Bool.not_true, Bool.false_eq_true, if_false,
      hnds, hdd, htds, hst, eq_self_iff_true, if_true, hupfull1, hup2]
  have hnone : dget? (dset c2 sub
      (.dict (dset ds (pys "contents") (.dict (dset cs f vf))))) f =
      none := by
    rw [dget?_dset_ne _ _ _ _ hfs]
    exact dget?_ddel_self hnd hdelc
  refine ⟨by rw [hmv], ?_, ?_⟩
  · simp only [hmv]
    rw [fs_find_append, hback2]
    exact fs_find_single_none hf1 (dget?_dset_self _ _ _) hnone
  · simp only [hmv]
    rw [show pySplit '/' s.current_directory ++ [sub, f] =
      (pySplit '/' s.current_directory ++ [sub]) ++ [f] by simp]
    rw [fs_find_append, fs_find_append, hback2]
    have hstep1 : fs_find (.dict (dset (dset d (pys "contents")
        (.dict (dset c sub (.dict (dset ds (pys "contents")
          (.dict (dset cs f vf)))))))
        (pys "contents") (.dict (dset c2 sub
          (.dict (dset ds (pys "contents") (.dict (dset cs f vf))))))))
        [sub] = some (.dict (dset ds (pys "contents")
          (.dict (dset cs f vf)))) :=
      fs_find_single_some hs1 (dget?_dset_self _ _ _)
        (dget?_dset_self _ _ _) (truthy_dict_ne_nil (dset_ne_nil _ _ _))
    rw [show ((some (PyVal.dict (dset (dset d (pys "contents")
        (.dict (dset c sub (.dict (dset ds (pys "contents")
          (.dict (dset cs f vf)))))))
        (pys "contents") (.dict (dset c2 sub
          (.dict (dset ds (pys "contents")
            (.dict (dset cs f vf))))))))).bind
        (fun v => fs_find v [sub])) = some (.dict (dset ds (pys "contents")
          (.dict (dset cs f vf)))) from hstep1]
    exact fs_find_single_some hf1 (dget?_dset_self _ _ _)
      (dget?_dset_self _ _ _) hvt

/-- Witness for C9: the amended statement instantiated at the reachable
state demoSub, moving the file f into the directory sub under /a. -/
theorem C9_witness :
    (mv demoSub (pys "f") (pys "sub")).1 = true ∧
    fs_find (mv demoSub (pys "f") (pys "sub")).2.file_system
      (pySplit '/' demoSub.current_directory ++ [pys "f"]) = none ∧
    fs_find (mv demoSub (pys "f") (pys "sub")).2.file_system
      (pySplit '/' demoSub.current_directory ++ [pys "sub", pys "f"]) =
      some fileNode :=
  C9_mv_into_subdirectory demoSub (pys "f") (pys "sub")
    [(pys "type", .str (pys "directory")),
     (pys "contents", .dict [(pys "sub", dirNode), (pys "f", fileNode)])]
    [(pys "sub", dirNode), (pys "f", fileNode)]
    [(pys "type", .str (pys "directory")), (pys "contents", .dict [])]
    [] fileNode
    rfl rfl (by decide) rfl rfl rfl rfl rfl (by decide) (by decide)
    (by decide) (by decide) (by decide) (by decide)

/-! ### Claim C10 counterexample -/

/-- C10 (amended): whenever the destination string of mv contains the
substring ".." anywhere, the resolved destination is discarded and the
move is redirected at the string obtained by dropping the last segment of
the current directory — and that redirect string is empty not only at the
root but also in any depth-one current directory, in which case the call
fails and changes nothing; when the current directory is at depth two or
more (the redirect string is non-empty), the source node is moved into the
node at that parent string, the rest of the destination being ignored. -/
theorem C10_mv_dotdot_redirects_to_parent :
    (∀ (s : FSState) (src dst : PyStr),
      isSubstring (pys "..") dst = true →
      (get_parent_and_name s.current_directory).1 = [] →
      mv s src dst = (false, s)) ∧
    (∀ (s : FSState) (src dst lastseg : PyStr) (ps : List PyStr)
      (dp cp2 d c : List (PyStr × PyVal)) (vsrc : PyVal),
      isSubstring (pys "..") dst = true →
      pySplit '/' s.current_directory = ps ++ [lastseg] →
      ps ≠ [] →
      pyJoin '/' ps ≠ [] →
      fs_find s.file_system ps = some (.dict dp) →
      dget? dp (pys "type") = some (.str (pys "directory")) →
      dget? dp (pys "contents") = some (.dict cp2) →
      dget? cp2 lastseg = some (.dict d) →
      dget? d (pys "contents") = some (.dict c) →
      (c.map Prod.fst).Nodup →
      dget? c src = some vsrc →
      truthy vsrc = true →
      src ≠ [] → '/' ∉ src → lastseg ≠ [] → src ≠ lastseg →
      (mv s src dst).1 = true ∧
      fs_find (mv s src dst).2.file_system (ps ++ [src]) = some vsrc ∧
      fs_find (mv s src dst).2.file_system (ps ++ [lastseg, src]) = none) := by
  constructor
  · intro s src dst hdots hpp
    rcases hs : get_directory s.file_system
        (s.current_directory ++ pys "/" ++ src) with _ | si
    · simp only [mv, hs]
    · rcases hts : truthy si with _ | _
      · simp only [mv, hs, hts, Bool.not_false, if_true]
      · simp only [mv, hs, hts, Bool.not_true, Bool.false_eq_true, if_false,
          hdots, eq_self_iff_true, if_true, hpp, ne_eq, not_true,
          ite_false]
  · intro s src dst lastseg ps dp cp2 d c vsrc hdots hsplit hps hjoin hpar
      hpt hpc hlast hdc hnd hsrc0 hvt hs1 hs2 hl1 hsl
    have hpsfree : ∀ x ∈ ps, '/' ∉ x := fun x hx =>
      not_mem_of_mem_pySplit (s := s.current_directory)
        (by rw [hsplit]; exact List.mem_append_left _ hx)
    have hpn1 : (get_parent_and_name s.current_directory).1 =
        pyJoin '/' ps := by
      unfold get_parent_and_name
      rw [hsplit]
      simp [List.dropLast_concat]
    have hsplitpn : pySplit '/' (pyJoin '/' ps) = ps :=
      pySplit_pyJoin hps hpsfree
    have hddl : get_directory s.file_system (pyJoin '/' ps) =
        some (.dict dp) := by
      unfold get_directory
      rw [hsplitpn]
      exact hpar
    have hdne : d ≠ [] := dget?_some_ne_nil hdc
    have htd : truthy (.dict d) = true := truthy_dict_ne_nil hdne
    have htdp : truthy (.dict dp) = true :=
      truthy_dict_ne_nil (dget?_some_ne_nil hpt)
    have hcurfind : fs_find s.file_system
        (pySplit '/' s.current_directory) = some (.dict d) := by
      rw [hsplit, fs_find_append, hpar]
      exact fs_find_single_some hl1 hpc hlast htd
    have hsrcl : get_directory s.file_system
        (s.current_directory ++ pys "/" ++ src) = some vsrc := by
      rw [get_directory_concat _ _ _ hs2, hcurfind]
      exact fs_find_single_some hs1 hdc hsrc0 hvt
    have hins : insertChildStrict src vsrc (.dict dp) =
        some (.dict (dset dp (pys "contents")
          (.dict (dset cp2 src vsrc)))) := by
      simp [insertChildStrict, hpc]
    obtain ⟨fs1, hup1, hback1p⟩ :=
      fs_update_of_find (insertChildStrict src vsrc) hpar hins
    obtain ⟨hft1, hback1⟩ :=
      hback1p (truthy_dict_ne_nil (dset_ne_nil _ _ _))
    have hupfull1 : fs_update s.file_system
        (pySplit '/' (pyJoin '/' ps)) (insertChildStrict src vsrc) =
        some fs1 := by
      rw [hsplitpn]
      exact hup1
    have hlast2 : dget? (dset cp2 src vsrc) lastseg = some (.dict d) := by
      rw [dget?_dset_ne _ _ _ _ (Ne.symm hsl)]
      exact hlast
    obtain ⟨c2, hdelc⟩ := ddel_isSome_of_dget? hsrc0
    have hdel : delChild src (.dict d) =
        some (.dict (dset d (pys "contents") (.dict c2))) := by
      simp only [delChild, hdc, hdelc, Option.map_some']
    have hg2 : (fun v => fs_update v [lastseg] (delChild src))
        (.dict (dset dp (pys "contents") (.dict (dset cp2 src vsrc)))) =
        some (.dict (dset (dset dp (pys "contents")
          (.dict (dset cp2 src vsrc))) (pys "contents")
          (.dict (dset (dset cp2 src vsrc) lastseg
            (.dict (dset d (pys "contents") (.dict c2))))))) :=
      fs_update_single hl1 (dget?_dset_self _ _ _) hlast2 htd hdel
    obtain ⟨fs2, hup2, hback2p⟩ := fs_update_of_find
      (fun v => fs_update v [lastseg] (delChild src)) hback1 hg2
    obtain ⟨hft2, hback2⟩ :=
      hback2p (truthy_dict_ne_nil (dset_ne_nil _ _ _))
    have hupfull2 : fs_update fs1 (pySplit '/' s.current_directory)
        (delChild src) = some fs2 := by
      rw [hsplit, fs_update_append]
      exact hup2
    have hmv : mv s src dst = (true, { s with file_system := fs2 }) := by
      simp only [mv, hsrcl, hvt, Bool.not_true, Bool.false_eq_true,
        if_false, hdots, eq_self_iff_true, if_true, hpn1, ne_eq, hjoin,
        not_false_eq_true, hddl, htdp, hpt, hupfull1, hupfull2]
    refine ⟨by rw [hmv], ?_, ?_⟩
    · simp only [hmv]
      rw [fs_find_append, hback2]
      refine fs_find_single_some hs1 (dget?_dset_self _ _ _) ?_ hvt
      rw [dget?_dset_ne _ _ _ _ hsl]
      exact dget?_dset_self _ _ _
    · simp only [hmv]
      rw [show ps ++ [lastseg, src] = (ps ++ [lastseg]) ++ [src] by simp]
      rw [fs_find_append, fs_find_append, hback2, Option.some_bind]
      rw [fs_find_single_some hl1 (dget?_dset_self _ _ _)
        (dget?_dset_self _ _ _) (truthy_dict_ne_nil (dset_ne_nil _ _ _))]
      rw [Option.some_bind]
      exact fs_find_single_none hs1 (dget?_dset_self _ _ _)
        (dget?_ddel_self hnd hdelc)

/-- Witness for C10: part one applied at the reachable root state demoDF
with destination ".."; part two applied at the reachable depth-two state
demoDeep (current directory /a/b holding the file f), moving f into /a
with destination "../whatever". -/
theorem C10_witness :
    mv demoDF (pys "f") (pys "..") = (false, demoDF) ∧
    (mv demoDeep (pys "f") (pys "../whatever")).1 = true ∧
    fs_find (mv demoDeep (pys "f") (pys "../whatever")).2.file_system
      ([[], pys "a"] ++ [pys "f"]) = some fileNode ∧
    fs_find (mv demoDeep (pys "f") (pys "../whatever")).2.file_system
      ([[], pys "a"] ++ [pys "b", pys "f"]) = none := by
  refine ⟨C10_mv_dotdot_redirects_to_parent.1 demoDF (pys "f") (pys "..")
    (by decide) rfl, ?_⟩
  have h := C10_mv_dotdot_redirects_to_parent.2 demoDeep (pys "f")
    (pys "../whatever") (pys "b") [[], pys "a"]
    [(pys "type", .str (pys "directory")),
     (pys "contents", .dict [(pys "b",
       .dict [(pys "type", .str (pys "directory")),
         (pys "contents", .dict [(pys "f", fileNode)])])])]
    [(pys "b", .dict [(pys "type", .str (pys "directory")),
      (pys "contents", .dict [(pys "f", fileNode)])])]
    [(pys "type", .str (pys "directory")),
     (pys "contents", .dict [(pys "f", fileNode)])]
    [(pys "f", fileNode)] fileNode
    (by decide) rfl (by decide) (by decide) rfl rfl rfl rfl rfl
    (by decide) rfl rfl (by decide) (by decide) (by decide) (by decide)
  exact h

/-- C10 counterexample: at the depth-one current directory /a (not the
root), with /a/f an existing file, mv("f", "..") fails and changes
nothing, although the claim says the move should target the parent
directory and fail only when the current directory is the root: the code
computes the parent string of "/a" as "" and rejects it. -/
theorem C10_counterexample_depth_one :
    demoSub.current_directory = pys "/a" ∧
    get_directory demoSub.file_system (pys "/a/f") = some fileNode ∧
    mv demoSub (pys "f") (pys "..") = (false, demoSub) :=
  ⟨rfl, rfl, rfl⟩

end InMemoryFS
